import Mathlib

/-!
Verification of the candlestick-analyzer scoring core.

Shallow embedding of src/analysis/scoring.py and src/analysis/patterns.py:
machine integers become Int, Python floats become Rat (the arithmetic here is
exact decimal arithmetic on multiples of 1/100), Python exceptions become
Except, the bias table (a dict of dicts built from a CSV) becomes an
association list parameter, and the pandas / TA-Lib backend becomes an
abstract detector registry.
-/

/-- Decidable equality for Except results, so that concrete runs of the
embedded functions can be checked by evaluation. -/
instance {α β : Type} [DecidableEq α] [DecidableEq β] : DecidableEq (Except α β)
  | .error a, .error b =>
    if h : a = b then .isTrue (by rw [h]) else .isFalse (fun hc => by injection hc; contradiction)
  | .error _, .ok _ => .isFalse (fun hc => Except.noConfusion hc)
  | .ok _, .error _ => .isFalse (fun hc => Except.noConfusion hc)
  | .ok a, .ok b =>
    if h : a = b then .isTrue (by rw [h]) else .isFalse (fun hc => by injection hc; contradiction)

namespace Candle

/-- Python values that can sit in a raw hit mapping under the keys fn / value. -/
inductive PyVal where
  | int (n : ℤ)
  | str (s : String)
  | none
deriving DecidableEq, Repr

/-- Python str() conversion as applied by extract to the fn field. -/
def pyStr : PyVal → String
  | .int n => toString n
  | .str s => s
  | .none => "None"

/-- Value of a run of decimal digits, left to right; fails on a non-digit. -/
def digitsAux : List Char → ℕ → Option ℕ
  | [], acc => some acc
  | c :: cs, acc =>
    if c.isDigit then digitsAux cs (acc * 10 + (c.toNat - 48)) else Option.none

/-- Python int() applied to a string: an optional sign followed by at least
one decimal digit; anything else raises ValueError. -/
def strToInt : String → Option ℤ
  | s =>
    match s.data with
    | [] => Option.none
    | '-' :: rest =>
      if rest.isEmpty then Option.none else (digitsAux rest 0).map (fun n => -(n : ℤ))
    | '+' :: rest =>
      if rest.isEmpty then Option.none else (digitsAux rest 0).map (fun n => (n : ℤ))
    | cs => (digitsAux cs 0).map (fun n => (n : ℤ))

/-- Python int() conversion; an error value models the raised ValueError or
TypeError escaping the caller. -/
def pyInt : PyVal → Except String ℤ
  | .int n => .ok n
  | .str s =>
    match strToInt s with
    | some n => .ok n
    | Option.none => .error "ValueError"
  | .none => .error "TypeError"

/-- Python round() on an exact rational: round half to even. -/
def roundHalfEven (q : ℚ) : ℤ :=
  let f : ℤ := ⌊q⌋
  let r : ℚ := q - (f : ℚ)
  if r < 1/2 then f
  else if 1/2 < r then f + 1
  else if f % 2 = 0 then f else f + 1

/-- Python round(x, 2): round to two decimal places, half to even. -/
def round2 (q : ℚ) : ℚ := (roundHalfEven (q * 100) : ℚ) / 100

/-- One record of the bias reference table after parsing in bias map
construction: the score has already been coerced to an integer. -/
structure BiasEntry where
  score : ℤ
  variant : Option String
  english : Option String
  japanese : Option String
  typical : Option String
  next_move : Option String
  description : Option String
deriving DecidableEq, Repr

/-- Python dict lookup on a string-keyed association list. -/
def dget {α : Type} (m : List (String × α)) (k : String) : Option α :=
  (m.find? (fun p => p.1 == k)).map (fun p => p.2)

/-- The memoized bias map: detector id, then variant, then entry, in
insertion order. -/
def BiasMap : Type := List (String × List (String × BiasEntry))

/-- The zero-valued entry {score 0, every text field None} returned by
lookup bias when the detector has no entries. -/
def emptyBiasEntry : BiasEntry :=
  { score := 0, variant := Option.none, english := Option.none,
    japanese := Option.none, typical := Option.none,
    next_move := Option.none, description := Option.none }

/-- normalize variant from scoring.py: the sign of the detector value picks
the variant key. -/
def _normalize_variant (value : ℤ) : String :=
  if value > 0 then "bullish"
  else if value < 0 then "bearish"
  else "neutral"

/-- lookup bias from scoring.py: the variant entry, else the neutral entry,
else the first entry stored for the detector, else the empty entry. -/
def _lookup_bias (bias : BiasMap) (fn : String) (value : ℤ) : BiasEntry :=
  match dget bias fn with
  | Option.none => emptyBiasEntry
  | some bias_for_fn =>
    if bias_for_fn.isEmpty then emptyBiasEntry
    else
      match dget bias_for_fn (_normalize_variant value) with
      | some entry => entry
      | Option.none =>
        match dget bias_for_fn "neutral" with
        | some entry => entry
        | Option.none =>
          match bias_for_fn.head? with
          | some kv => kv.2
          | Option.none => emptyBiasEntry

/-- base score from scoring.py: the integer score of the looked-up entry. -/
def _base_score (bias : BiasMap) (fn : String) (value : ℤ) : ℤ :=
  (_lookup_bias bias fn value).score

/-- The PatternHit dataclass of domain/models.py (dates abstracted to Nat). -/
structure PatternHit where
  fn : String
  value : ℤ
  strength : Option ℚ := Option.none
  base_score : Option ℤ := Option.none
  weighted_score : Option ℚ := Option.none
  variant : Option String := Option.none
  english : Option String := Option.none
  japanese : Option String := Option.none
  typical_setup : Option String := Option.none
  next_move : Option String := Option.none
  description : Option String := Option.none
  date : Option ℕ := Option.none
deriving DecidableEq, Repr

/-- A raw hit mapping: the values found under the keys fn and value, if
present. -/
structure RawHit where
  fn : Option PyVal
  value : Option PyVal
deriving DecidableEq, Repr

/-- Input accepted by the scoring engine: an enriched PatternHit or a raw
mapping. -/
inductive ScoreInput where
  | pat (p : PatternHit)
  | map (m : RawHit)
deriving DecidableEq, Repr

/-- extract from scoring.py: a PatternHit yields its fields directly; a
mapping passes str() over fn and int() over value (default 0), and the
int() conversion can raise. -/
def _extract : ScoreInput → Except String (String × ℤ)
  | .pat p => .ok (p.fn, p.value)
  | .map m =>
    let fn := pyStr (m.fn.getD PyVal.none)
    match pyInt (m.value.getD (PyVal.int 0)) with
    | .ok v => .ok (fn, v)
    | .error e => .error e

/-- The accumulation loop of total score from hits: the running float total,
with any exception from extract aborting the whole call. -/
def scoreLoop (bias : BiasMap) : List ScoreInput → ℚ → Except String ℚ
  | [], acc => .ok acc
  | raw :: rest, acc =>
    match _extract raw with
    | .error e => .error e
    | .ok fv =>
      let base : ℤ := |_base_score bias fv.1 fv.2| * (if fv.2 > 0 then 1 else -1)
      let strength : ℚ := (|fv.2| : ℚ) / 100
      scoreLoop bias rest (acc + (base : ℚ) * strength)

/-- total score from hits of scoring.py: accumulate, round, clamp. -/
def total_score_from_hits (bias : BiasMap) (clip_min clip_max : ℤ)
    (hits : List ScoreInput) : Except String ℤ :=
  match scoreLoop bias hits 0 with
  | .error e => .error e
  | .ok score => .ok (max clip_min (min clip_max (roundHalfEven score)))

/-- Enrichment of a single hit inside the loop of enrich hits. -/
def enrichOne (bias : BiasMap) (dt : Option ℕ) (raw : ScoreInput) :
    Except String PatternHit :=
  match _extract raw with
  | .error e => .error e
  | .ok fv =>
    let info := _lookup_bias bias fv.1 fv.2
    let strength : Option ℚ :=
      if fv.2 ≠ 0 then some ((|fv.2| : ℚ) / 100) else Option.none
    let weighted : Option ℚ :=
      match strength with
      | some s => some (round2 ((info.score : ℚ) * s))
      | Option.none => Option.none
    .ok { fn := fv.1, value := fv.2, strength := strength,
          base_score := some info.score, weighted_score := weighted,
          variant := info.variant, english := info.english,
          japanese := info.japanese, typical_setup := info.typical,
          next_move := info.next_move, description := info.description,
          date := dt }

/-- enrich hits of scoring.py: map enrichment over the hit list, any raised
exception aborting the call. -/
def enrich_hits (bias : BiasMap) (dt : Option ℕ) :
    List ScoreInput → Except String (List PatternHit)
  | [] => .ok []
  | raw :: rest =>
    match enrichOne bias dt raw with
    | .error e => .error e
    | .ok p =>
      match enrich_hits bias dt rest with
      | .error e => .error e
      | .ok ps => .ok (p :: ps)

/-- Python format +d: an explicit sign in front of the decimal digits. -/
def fmtPlus (n : ℤ) : String := if 0 ≤ n then "+" ++ toString n else toString n

/-- categorize score of scoring.py, with its literal category names and
labels (full-width plus U+FF0B and minus sign U+2212 as in the source). -/
def categorize_score : Option ℤ → Option String × String
  | Option.none => (Option.none, "—")
  | some score =>
    if score ≥ 3 then (some "Strong＋", "↑↑ Strong＋ (" ++ fmtPlus score ++ ")")
    else if score ≥ 1 then (some "Mild＋", "↑ Mild＋ (" ++ fmtPlus score ++ ")")
    else if score ≤ -3 then (some "Strong−", "↓↓ Strong− (" ++ fmtPlus score ++ ")")
    else if score ≤ -1 then (some "Mild−", "↓ Mild− (" ++ fmtPlus score ++ ")")
    else (some "Neutral", "Neutral (0)")

/-! Embedding of patterns.py: the pandas frame becomes a list of named
columns plus the per-row dates (pandas derives these from a date or datetime
column, else from the index; either way one date per row), and the TA-Lib
module becomes an optional list of named detector functions whose run may
fail (modelling a raised exception) and whose per-day outputs may fail int()
conversion (modelling NaN), both silently skipped by the source. -/

/-- One candlestick detector of the backend registry: a name and a function
from the four OHLC columns to an optional per-day output series. -/
structure Detector where
  name : String
  run : List ℚ → List ℚ → List ℚ → List ℚ → Option (List (Option ℤ))

/-- A pandas data frame as consumed by patterns.py. -/
structure Frame where
  cols : List (String × List ℚ)
  dates : List ℕ

/-- ASCII lowercasing of one character, modelling str.lower() on the ASCII
column and detector names this code handles. -/
def lowerChar (c : Char) : Char :=
  if 'A' ≤ c ∧ c ≤ 'Z' then Char.ofNat (c.toNat + 32) else c

/-- ASCII lowercasing of a string. -/
def lowerStr (s : String) : String := ⟨s.data.map lowerChar⟩

/-- ASCII uppercasing of one character, modelling str.upper(). -/
def upperChar (c : Char) : Char :=
  if 'a' ≤ c ∧ c ≤ 'z' then Char.ofNat (c.toNat - 32) else c

/-- ASCII uppercasing of a string. -/
def upperStr (s : String) : String := ⟨s.data.map upperChar⟩

/-- The comprehension building cols of compute pattern series: lowercased
column name to original name, a later column overwriting an earlier one. -/
def lowerMap (names : List String) (key : String) : Option String :=
  names.reverse.find? (fun c => lowerStr c == key)

/-- Selection of a column's values by original name. -/
def colValues (df : Frame) (name : String) : List ℚ :=
  (dget df.cols name).getD []

/-- compute pattern series of patterns.py: resolve the OHLC columns
case-insensitively (empty result if any is missing), filter the registry by
the enabled pattern names uppercased, run each detector keeping only the
successful series, and return the series map with the per-row dates. -/
def _compute_pattern_series (dets : List Detector) (df : Frame)
    (patterns : Option (List String)) :
    List (String × List (Option ℤ)) × List ℕ :=
  let names := df.cols.map (fun p => p.1)
  if (lowerMap names "open").isNone ∨ (lowerMap names "high").isNone ∨
     (lowerMap names "low").isNone ∨ (lowerMap names "close").isNone then
    ([], [])
  else
    let o := colValues df ((lowerMap names "open").getD "")
    let h := colValues df ((lowerMap names "high").getD "")
    let l := colValues df ((lowerMap names "low").getD "")
    let c := colValues df ((lowerMap names "close").getD "")
    let functions :=
      match patterns with
      | some ps =>
        dets.filter (fun d : Detector => (ps.map upperStr).contains (upperStr d.name))
      | Option.none => dets
    let series_map := functions.filterMap (fun d : Detector =>
      (d.run o h l c).map (fun s => (d.name, s)))
    (series_map, df.dates)

/-- The inner per-day loop of detect with history: the hits whose series
value at the given row both converts to int and is nonzero; a missing or
unconvertible value is skipped by the except-continue of the source. -/
def dayHits (series_map : List (String × List (Option ℤ))) (idx : ℕ) :
    List (String × ℤ) :=
  series_map.filterMap (fun p =>
    match p.2.get? idx with
    | some (some v) => if v ≠ 0 then some (p.1, v) else Option.none
    | _ => Option.none)

/-- One emitted day of the history timeline. -/
structure HistoryEntry where
  date : ℕ
  hits : List (String × ℤ)
deriving DecidableEq, Repr

/-- The history loop of detect with history over the window's row indices:
days with no hits are skipped, and indexing the dates list out of range is
an uncaught error (none). -/
def historyLoop (series_map : List (String × List (Option ℤ)))
    (dates : List ℕ) : List ℕ → Option (List HistoryEntry)
  | [] => some []
  | idx :: rest =>
    match dates.get? idx with
    | Option.none => Option.none
    | some d =>
      match historyLoop series_map dates rest with
      | Option.none => Option.none
      | some es =>
        let dh := dayHits series_map idx
        if dh.isEmpty then some es else some (HistoryEntry.mk d dh :: es)

/-- detect with history of patterns.py: empty results when the backend is
unavailable, the frame is empty or no detector produced a series; otherwise
today's hits at the last row and the trailing-window history. -/
def detect_with_history (backend : Option (List Detector)) (df : Frame)
    (lookback : ℕ) (patterns : Option (List String)) :
    Option (List (String × ℤ) × List HistoryEntry) :=
  match backend with
  | Option.none => some ([], [])
  | some dets =>
    if df.dates.isEmpty then some ([], [])
    else
      let sm := _compute_pattern_series dets df patterns
      if sm.1.isEmpty then some ([], [])
      else
        let last_index := sm.2.length - 1
        let hits_today := dayHits sm.1 last_index
        let start := last_index + 1 - lookback
        let idxs := List.range' start (last_index + 1 - start)
        match historyLoop sm.1 sm.2 idxs with
        | Option.none => Option.none
        | some es => some (hits_today, es)

/-! Concrete inputs used to exercise the embedded functions. -/

/-- A bias entry with a given score and variant and no descriptive text. -/
def biasEntryOf (s : ℤ) (v : Option String) : BiasEntry :=
  { score := s, variant := v, english := Option.none, japanese := Option.none,
    typical := Option.none, next_move := Option.none, description := Option.none }

/-- A small bias table covering the two detectors of the literal scenario. -/
def scenarioBias : BiasMap :=
  [("CDLENGULFING",
    [("bullish", biasEntryOf 2 (some "bullish")),
     ("bearish", biasEntryOf (-2) (some "bearish"))]),
   ("CDLKICKINGBYLENGTH", [("bullish", biasEntryOf 3 (some "bullish"))])]

/-- The literal scenario hit list, including the out-of-range value 200. -/
def scenarioHits : List ScoreInput :=
  [.map ⟨some (.str "CDLENGULFING"), some (.int 100)⟩,
   .map ⟨some (.str "CDLENGULFING"), some (.int (-100))⟩,
   .map ⟨some (.str "CDLKICKINGBYLENGTH"), some (.int 200)⟩]

/-- The enrichment of the literal scenario hits under the scenario bias. -/
def scenarioEnriched : List PatternHit :=
  [{ fn := "CDLENGULFING", value := 100, strength := some 1, base_score := some 2,
     weighted_score := some 2, variant := some "bullish" },
   { fn := "CDLENGULFING", value := -100, strength := some 1, base_score := some (-2),
     weighted_score := some (-2), variant := some "bearish" },
   { fn := "CDLKICKINGBYLENGTH", value := 200, strength := some 2, base_score := some 3,
     weighted_score := some 6, variant := some "bullish" }]

/-- A hit mapping whose value field is a non-numeric string. -/
def badHit : ScoreInput := .map ⟨some (.str "CDLENGULFING"), some (.str "abc")⟩

/-- A well-formed hit mapping placed after the malformed one. -/
def goodHit : ScoreInput := .map ⟨some (.str "CDLENGULFING"), some (.int 100)⟩

/-- A bias table whose bearish entry stores a positive (wrong-sign) score. -/
def wrongSignBias : BiasMap :=
  [("F", [("bearish", biasEntryOf 3 (some "bearish"))])]

/-- A bearish hit on the detector with the wrong-sign bearish entry. -/
def wrongSignHit : ScoreInput := .map ⟨some (.str "F"), some (.int (-100))⟩

/-- The enrichment produced for the wrong-sign hit. -/
def wrongSignEnriched : PatternHit :=
  { fn := "F", value := -100, strength := some 1, base_score := some 3,
    weighted_score := some 3, variant := some "bearish" }

/-- Variant entries of the cascade example detector. -/
def cascadeEntries : List (String × BiasEntry) :=
  [("bullish", biasEntryOf 4 (some "bullish")),
   ("neutral", biasEntryOf 1 (some "neutral"))]

/-- A bias table for exercising the lookup fallback cascade. -/
def cascadeBias : BiasMap := [("G", cascadeEntries)]

/-- A detector whose series marks the second and third of three days. -/
def sampleDetector : Detector :=
  { name := "CDLSAMPLE",
    run := fun o _ _ _ => some (o.map (fun q => if q = 0 then some 0 else some 100)) }

/-- A backend registry holding the sample detector. -/
def sampleBackend : Option (List Detector) := some [sampleDetector]

/-- A three-day frame with OHLC columns and ascending dates. -/
def sampleFrame : Frame :=
  { cols := [("Open", [0, 2, 3]), ("High", [0, 2, 3]),
             ("Low", [0, 2, 3]), ("Close", [0, 2, 3])],
    dates := [10, 11, 12] }

/-- A frame missing every OHLC column. -/
def noOhlcFrame : Frame := { cols := [("foo", [1])], dates := [7] }

/-- An empty frame. -/
def emptyFrame : Frame := { cols := [], dates := [] }

/-- Extraction of the (fn, value) pairs of a hit list, failing like the
loop does on the first malformed record. -/
def extractAll : List ScoreInput → Except String (List (String × ℤ))
  | [] => .ok []
  | x :: rest =>
    match _extract x with
    | .error e => .error e
    | .ok fv =>
      match extractAll rest with
      | .error e => .error e
      | .ok ps => .ok (fv :: ps)

/-- The contribution of one extracted pair in the source loop: the bias
magnitude re-signed by an if on the value, times the strength. -/
def codeTerm (bias : BiasMap) (p : String × ℤ) : ℚ :=
  ((|_base_score bias p.1 p.2| * (if p.2 > 0 then 1 else -1) : ℤ) : ℚ) * ((|p.2| : ℚ) / 100)

/-- The contribution of one pair as the spec words it: base is the bias
magnitude times the sign of the value, weighted by strength. -/
def refTerm (bias : BiasMap) (p : String × ℤ) : ℚ :=
  ((|_base_score bias p.1 p.2| * Int.sign p.2 : ℤ) : ℚ) * ((|p.2| : ℚ) / 100)

/-- The spec's reference definition of the total score: sum the re-signed
weighted terms, round half to even, clamp. -/
def total_score_ref (bias : BiasMap) (cmin cmax : ℤ) (pairs : List (String × ℤ)) : ℤ :=
  max cmin (min cmax (roundHalfEven ((pairs.map (refTerm bias)).sum)))

/-! Theorems. -/

/-- The if-based re-signing of the code agrees with the sign-based wording
of the spec, the value-zero case contributing zero either way. -/
lemma codeTerm_eq_refTerm (bias : BiasMap) (p : String × ℤ) :
    codeTerm bias p = refTerm bias p := by
  unfold codeTerm refTerm
  rcases lt_trichotomy p.2 0 with h | h | h
  · rw [Int.sign_eq_neg_one_iff_neg.mpr h, if_neg (by omega)]
  · simp [h]
  · rw [Int.sign_eq_one_iff_pos.mpr h, if_pos h]

/-- The accumulation loop computes the running sum of the per-hit terms. -/
lemma scoreLoop_eq_sum (bias : BiasMap) :
    ∀ (hits : List ScoreInput) (pairs : List (String × ℤ)) (acc : ℚ),
    extractAll hits = .ok pairs →
    scoreLoop bias hits acc = .ok (acc + (pairs.map (codeTerm bias)).sum) := by
  intro hits
  induction hits with
  | nil =>
    intro pairs acc h
    injection h with h'
    subst h'
    simp [scoreLoop]
  | cons x rest ih =>
    intro pairs acc h
    unfold extractAll at h
    cases hex : _extract x with
    | error e => rw [hex] at h; cases h
    | ok fv =>
      rw [hex] at h
      cases hrest : extractAll rest with
      | error e => rw [hrest] at h; cases h
      | ok ps =>
        rw [hrest] at h
        injection h with h'
        subst h'
        simp only [scoreLoop, hex]
        rw [ih ps _ hrest]
        congr 1
        simp only [List.map_cons, List.sum_cons, codeTerm]
        ring

/-- C2: total score from hits coincides with the spec's reference
definition on every hit list whose records all extract. -/
theorem total_score_matches_ref (bias : BiasMap) (cmin cmax : ℤ)
    (hits : List ScoreInput) (pairs : List (String × ℤ))
    (h : extractAll hits = .ok pairs) :
    total_score_from_hits bias cmin cmax hits =
      .ok (total_score_ref bias cmin cmax pairs) := by
  unfold total_score_from_hits total_score_ref
  rw [scoreLoop_eq_sum bias hits pairs 0 h]
  have hfun : codeTerm bias = refTerm bias := funext (codeTerm_eq_refTerm bias)
  rw [zero_add, hfun]

/-- Witness: the refinement equality evaluated on the literal scenario. -/
theorem total_score_matches_ref_witness :
    total_score_from_hits scenarioBias (-5) 5 scenarioHits =
      .ok (total_score_ref scenarioBias (-5) 5
        [("CDLENGULFING", 100), ("CDLENGULFING", -100), ("CDLKICKINGBYLENGTH", 200)]) :=
  total_score_matches_ref scenarioBias (-5) 5 scenarioHits _ (by decide)

/-- Rounding half to even fixes every integer. -/
lemma roundHalfEven_intCast (n : ℤ) : roundHalfEven (n : ℚ) = n := by
  unfold roundHalfEven
  rw [Int.floor_intCast]
  norm_num

/-- The weighted score is exact: rounding an integer times a strength that
is a multiple of one hundredth to two decimals changes nothing. -/
lemma round2_exact (b v : ℤ) :
    round2 ((b : ℚ) * (|(v : ℚ)| / 100)) = ((b * |v| : ℤ) : ℚ) / 100 := by
  unfold round2
  have h : ((b : ℚ) * (|(v : ℚ)| / 100)) * 100 = ((b * |v| : ℤ) : ℚ) := by
    push_cast
    ring
  rw [h, roundHalfEven_intCast]

/-- Sign of an integer divided by one hundred, over the rationals. -/
lemma div100_sign (c : ℤ) :
    ((0 : ℚ) < (c : ℚ) / 100 ↔ 0 < c) ∧ ((c : ℚ) / 100 < 0 ↔ c < 0) := by
  constructor
  · rw [lt_div_iff₀ (show (0 : ℚ) < 100 by norm_num), zero_mul]
    exact Int.cast_pos
  · rw [div_lt_iff₀ (show (0 : ℚ) < 100 by norm_num), zero_mul]
    exact Int.cast_lt_zero

/-- C3 counterexample: under a bias table whose bearish entry stores a
positive score, a hit with negative value is enriched to a strictly
positive weighted score, so enrichment does not correct the sign. -/
theorem enrich_sign_cex :
    enrich_hits wrongSignBias Option.none [wrongSignHit] = .ok [wrongSignEnriched] ∧
    wrongSignEnriched.value < 0 ∧
    wrongSignEnriched.weighted_score = some 3 ∧ (0 : ℚ) < 3 := by
  refine ⟨?_, by decide, rfl, by norm_num⟩
  simp [enrich_hits, enrichOne, _extract, pyInt, pyStr, _lookup_bias, dget,
        _normalize_variant, wrongSignBias, wrongSignHit, wrongSignEnriched,
        biasEntryOf, round2, roundHalfEven]
  norm_num

/-- C3 amended: the weighted score of an enriched hit always carries the
sign of the stored base score (strength is strictly positive), not
necessarily the sign of the hit's value. -/
theorem enrich_weighted_sign_matches_base (bias : BiasMap) (dt : Option ℕ)
    (hits : List ScoreInput) (pats : List PatternHit)
    (h : enrich_hits bias dt hits = .ok pats) :
    ∀ p ∈ pats, ∀ w, p.weighted_score = some w → ∀ b, p.base_score = some b →
      ((0 < w ↔ 0 < b) ∧ (w < 0 ↔ b < 0)) := by
  induction hits generalizing pats with
  | nil =>
    injection h with h'
    subst h'
    intro p hp
    simp at hp
  | cons x rest ih =>
    unfold enrich_hits at h
    cases hone : enrichOne bias dt x with
    | error e => rw [hone] at h; cases h
    | ok p0 =>
      rw [hone] at h
      cases hrest : enrich_hits bias dt rest with
      | error e => rw [hrest] at h; cases h
      | ok ps =>
        rw [hrest] at h
        injection h with h'
        subst h'
        intro p hp
        rcases List.mem_cons.mp hp with rfl | hmem
        · unfold enrichOne at hone
          cases hex : _extract x with
          | error e => rw [hex] at hone; cases hone
          | ok fv =>
            rw [hex] at hone
            injection hone with h0
            subst h0
            intro w hw b hb
            by_cases hv : fv.2 = 0
            · simp [hv] at hw
            · simp [hv] at hw hb
              subst hw
              subst hb
              rw [round2_exact]
              have habs : (0 : ℤ) < |fv.2| := abs_pos.mpr hv
              generalize |fv.2| = m at habs ⊢
              rw [(div100_sign _).1, (div100_sign _).2, mul_pos_iff, mul_neg_iff]
              constructor
              · constructor
                · rintro (⟨h1, _⟩ | ⟨_, h2⟩)
                  · exact h1
                  · omega
                · intro h1
                  exact Or.inl ⟨h1, habs⟩
              · constructor
                · rintro (⟨_, h2⟩ | ⟨h1, _⟩)
                  · omega
                  · exact h1
                · intro h1
                  exact Or.inr ⟨h1, habs⟩
        · exact ih ps hrest p hmem

/-- Witness: the amended sign theorem applied to the wrong-sign scenario. -/
theorem enrich_weighted_sign_matches_base_witness :
    ((0 : ℚ) < 3 ↔ (0 : ℤ) < 3) ∧ ((3 : ℚ) < 0 ↔ (3 : ℤ) < 0) :=
  enrich_weighted_sign_matches_base wrongSignBias Option.none [wrongSignHit]
    [wrongSignEnriched]
    (by simp [enrich_hits, enrichOne, _extract, pyInt, pyStr, _lookup_bias, dget,
              _normalize_variant, wrongSignBias, wrongSignHit, wrongSignEnriched,
              biasEntryOf, round2, roundHalfEven]
        norm_num)
    wrongSignEnriched (by simp) 3 rfl 3 rfl

/-- The accumulation loop returns a value whenever every hit extracts. -/
lemma scoreLoop_isOk (bias : BiasMap) :
    ∀ (hits : List ScoreInput) (acc : ℚ), (∀ x ∈ hits, (_extract x).isOk) →
    ∃ q, scoreLoop bias hits acc = .ok q := by
  intro hits
  induction hits with
  | nil => exact fun acc _ => ⟨acc, rfl⟩
  | cons x rest ih =>
    intro acc hall
    have hx := hall x (List.mem_cons_self x rest)
    cases hex : _extract x with
    | error e => rw [hex] at hx; simp [Except.isOk, Except.toBool] at hx
    | ok fv =>
      obtain ⟨q, hq⟩ := ih _ (fun y hy => hall y (List.mem_cons_of_mem x hy))
      exact ⟨q, by simpa [scoreLoop, hex] using hq⟩

/-- C1: for every hit collection, any integer that total score from hits
returns lies in the configured clamp range; a collection whose records all
extract does return one; and the empty collection yields 0. -/
theorem total_score_clamped (bias : BiasMap) (cmin cmax : ℤ) (hits : List ScoreInput)
    (hmin : cmin ≤ 0) (hmax : 0 ≤ cmax) :
    (∀ n, total_score_from_hits bias cmin cmax hits = .ok n → cmin ≤ n ∧ n ≤ cmax) ∧
    ((∀ x ∈ hits, (_extract x).isOk) →
       ∃ n, total_score_from_hits bias cmin cmax hits = .ok n ∧ cmin ≤ n ∧ n ≤ cmax) ∧
    total_score_from_hits bias cmin cmax [] = .ok 0 := by
  have hbound : ∀ r : ℤ, cmin ≤ max cmin (min cmax r) ∧ max cmin (min cmax r) ≤ cmax := by
    intro r
    exact ⟨le_max_left _ _, max_le (hmin.trans hmax) (min_le_left _ _)⟩
  refine ⟨?_, ?_, ?_⟩
  · intro n hn
    unfold total_score_from_hits at hn
    cases hq : scoreLoop bias hits 0 with
    | error e => rw [hq] at hn; exact absurd hn (by simp)
    | ok q =>
      rw [hq] at hn
      injection hn with h
      exact h ▸ hbound _
  · intro hall
    obtain ⟨q, hq⟩ := scoreLoop_isOk bias hits 0 hall
    exact ⟨_, by unfold total_score_from_hits; rw [hq], hbound _⟩
  · unfold total_score_from_hits
    have h0 : roundHalfEven 0 = 0 := by norm_num [roundHalfEven]
    simp [scoreLoop, h0, min_eq_right hmax, max_eq_right hmin]

/-- Witness: the clamp theorem applied to the literal scenario hits with the
default clamp range. -/
theorem total_score_clamped_witness :
    (∃ n, total_score_from_hits scenarioBias (-5) 5 scenarioHits = .ok n ∧
      -5 ≤ n ∧ n ≤ 5) ∧
    total_score_from_hits scenarioBias (-5) 5 [] = .ok 0 :=
  ⟨(total_score_clamped scenarioBias (-5) 5 scenarioHits (by norm_num) (by norm_num)).2.1
      (by decide),
   (total_score_clamped scenarioBias (-5) 5 [] (by norm_num) (by norm_num)).2.2⟩

/-- C4: categorize score is total on the clamped range: the null score maps
to the em-dash placeholder, every integer in [-5, 5] falls in exactly one
of the five bands with inclusive boundaries, and the five category names
are pairwise distinct. -/
theorem categorize_partition (s : ℤ) (hlo : -5 ≤ s) (hhi : s ≤ 5) :
    categorize_score Option.none = (Option.none, "—") ∧
    ((3 ≤ s ∧ (categorize_score (some s)).1 = some "Strong＋") ∨
     (1 ≤ s ∧ s ≤ 2 ∧ (categorize_score (some s)).1 = some "Mild＋") ∨
     (s = 0 ∧ (categorize_score (some s)).1 = some "Neutral") ∨
     (-2 ≤ s ∧ s ≤ -1 ∧ (categorize_score (some s)).1 = some "Mild−") ∨
     (s ≤ -3 ∧ (categorize_score (some s)).1 = some "Strong−")) ∧
    ([some "Strong＋", some "Mild＋", some "Neutral", some "Mild−",
      some ("Strong−" : String)].Pairwise (· ≠ ·)) := by
  refine ⟨rfl, ?_, by decide⟩
  interval_cases s <;> decide

/-- Witness: the partition theorem evaluated at score 4. -/
theorem categorize_partition_witness :
    categorize_score Option.none = (Option.none, "—") ∧
    ((3 ≤ (4 : ℤ) ∧ (categorize_score (some 4)).1 = some "Strong＋") ∨
     (1 ≤ (4 : ℤ) ∧ (4 : ℤ) ≤ 2 ∧ (categorize_score (some 4)).1 = some "Mild＋") ∨
     ((4 : ℤ) = 0 ∧ (categorize_score (some 4)).1 = some "Neutral") ∨
     (-2 ≤ (4 : ℤ) ∧ (4 : ℤ) ≤ -1 ∧ (categorize_score (some 4)).1 = some "Mild−") ∨
     ((4 : ℤ) ≤ -3 ∧ (categorize_score (some 4)).1 = some "Strong−")) ∧
    ([some "Strong＋", some "Mild＋", some "Neutral", some "Mild−",
      some ("Strong−" : String)].Pairwise (· ≠ ·)) :=
  categorize_partition 4 (by norm_num) (by norm_num)

/-- C5 counterexample: at score 2 the code returns the full-width category
Mild＋ and a full-width label, not the claimed ASCII pair. -/
theorem categorize_literal_cex :
    ¬ (categorize_score (some 2) = (some "Mild-positive", "↑ Mild+ (+2)")) := by
  decide

/-- C5 amended: the literal outputs of categorize score use the full-width
plus sign U+FF0B and the minus sign U+2212 in categories and labels. -/
theorem categorize_literal_exact :
    categorize_score (some 4) = (some "Strong＋", "↑↑ Strong＋ (+4)") ∧
    categorize_score (some 2) = (some "Mild＋", "↑ Mild＋ (+2)") ∧
    categorize_score (some 0) = (some "Neutral", "Neutral (0)") ∧
    categorize_score (some (-1)) = (some "Mild−", "↓ Mild− (-1)") ∧
    categorize_score (some (-5)) = (some "Strong−", "↓↓ Strong− (-5)") := by
  decide

/-- C6 counterexample: a record whose value is the non-numeric string abc
makes total score from hits raise ValueError instead of being skipped, even
though a well-formed record follows it. -/
theorem malformed_hit_raises_cex :
    total_score_from_hits scenarioBias (-5) 5 [badHit, goodHit] = .error "ValueError" := by
  decide

/-- The accumulation loop raises whenever some record fails to extract. -/
lemma scoreLoop_error_of_bad (bias : BiasMap) :
    ∀ hits : List ScoreInput, (∃ x ∈ hits, ¬ (_extract x).isOk) →
    ∃ e, ∀ acc, scoreLoop bias hits acc = .error e := by
  intro hits
  induction hits with
  | nil =>
    rintro ⟨x, hx, _⟩
    simp at hx
  | cons y rest ih =>
    rintro ⟨x, hx, hbad⟩
    cases hex : _extract y with
    | error e => exact ⟨e, fun acc => by simp [scoreLoop, hex]⟩
    | ok fv =>
      rcases List.mem_cons.mp hx with rfl | hmem
      · rw [hex] at hbad
        simp [Except.isOk, Except.toBool] at hbad
      · obtain ⟨e, he⟩ := ih ⟨x, hmem, hbad⟩
        exact ⟨e, fun acc => by simp [scoreLoop, hex, he]⟩

/-- C6 amended: malformed hit records are not skipped; whenever a hit list
contains a record that does not extract, total score from hits raises. -/
theorem malformed_hit_aborts (bias : BiasMap) (cmin cmax : ℤ) (hits : List ScoreInput)
    (h : ∃ x ∈ hits, ¬ (_extract x).isOk) :
    ∃ e, total_score_from_hits bias cmin cmax hits = .error e := by
  obtain ⟨e, he⟩ := scoreLoop_error_of_bad bias hits h
  exact ⟨e, by unfold total_score_from_hits; rw [he 0]⟩

/-- Witness: the abort theorem applied to the malformed-then-good list. -/
theorem malformed_hit_aborts_witness :
    ∃ e, total_score_from_hits scenarioBias (-5) 5 [badHit, goodHit] = .error e :=
  malformed_hit_aborts scenarioBias (-5) 5 [badHit, goodHit]
    ⟨badHit, List.mem_cons_self _ _, by decide⟩

/-- C7: the bias lookup picks the variant from the sign of the value and
falls back from the variant entry to the neutral entry, then to the first
stored entry, and finally to the zero-valued empty entry. -/
theorem lookup_bias_cascade (bias : BiasMap) (fn : String) (v : ℤ) :
    ((0 < v → _normalize_variant v = "bullish") ∧
     (v < 0 → _normalize_variant v = "bearish") ∧
     (v = 0 → _normalize_variant v = "neutral")) ∧
    (∀ entries e, dget bias fn = some entries →
       dget entries (_normalize_variant v) = some e → _lookup_bias bias fn v = e) ∧
    (∀ entries e, dget bias fn = some entries →
       dget entries (_normalize_variant v) = Option.none →
       dget entries "neutral" = some e → _lookup_bias bias fn v = e) ∧
    (∀ k e rest, dget bias fn = some ((k, e) :: rest) →
       dget ((k, e) :: rest) (_normalize_variant v) = Option.none →
       dget ((k, e) :: rest) "neutral" = Option.none → _lookup_bias bias fn v = e) ∧
    (dget bias fn = Option.none → _lookup_bias bias fn v = emptyBiasEntry) ∧
    (dget bias fn = some [] → _lookup_bias bias fn v = emptyBiasEntry) ∧
    (emptyBiasEntry.score = 0 ∧ emptyBiasEntry.variant = Option.none ∧
     emptyBiasEntry.english = Option.none ∧ emptyBiasEntry.japanese = Option.none ∧
     emptyBiasEntry.typical = Option.none ∧ emptyBiasEntry.next_move = Option.none ∧
     emptyBiasEntry.description = Option.none) := by
  refine ⟨⟨?_, ?_, ?_⟩, ?_, ?_, ?_, ?_, ?_, by decide⟩
  · intro h
    simp [_normalize_variant, h]
  · intro h
    simp [_normalize_variant, show ¬ v > 0 by omega, h]
  · intro h
    simp [_normalize_variant, h]
  · intro entries e h1 h2
    unfold _lookup_bias
    rw [h1]
    cases entries with
    | nil => simp [dget] at h2
    | cons kv rest => simp [h2]
  · intro entries e h1 h2 h3
    unfold _lookup_bias
    rw [h1]
    cases entries with
    | nil => simp [dget] at h3
    | cons kv rest => simp [h2, h3]
  · intro k e rest h1 h2 h3
    unfold _lookup_bias
    rw [h1]
    simp [h2, h3]
  · intro h
    unfold _lookup_bias
    rw [h]
  · intro h
    unfold _lookup_bias
    rw [h]
    simp

/-- Witness: the cascade theorem applied to the cascade example table, once
hitting the bullish entry directly and once falling back to neutral. -/
theorem lookup_bias_cascade_witness :
    _lookup_bias cascadeBias "G" 100 = biasEntryOf 4 (some "bullish") ∧
    _lookup_bias cascadeBias "G" (-100) = biasEntryOf 1 (some "neutral") :=
  ⟨(lookup_bias_cascade cascadeBias "G" 100).2.1 cascadeEntries _ (by decide) (by decide),
   (lookup_bias_cascade cascadeBias "G" (-100)).2.2.1 cascadeEntries _ (by decide)
     (by decide) (by decide)⟩

/-- Scoring an enriched list steps exactly like scoring the raw list: each
enriched hit keeps the fn and value that extraction produced. -/
lemma scoreLoop_enrich (bias : BiasMap) (dt : Option ℕ) :
    ∀ (hits : List ScoreInput) (pats : List PatternHit) (acc : ℚ),
    enrich_hits bias dt hits = .ok pats →
    scoreLoop bias (pats.map ScoreInput.pat) acc = scoreLoop bias hits acc := by
  intro hits
  induction hits with
  | nil =>
    intro pats acc h
    injection h with h'
    subst h'
    rfl
  | cons x rest ih =>
    intro pats acc h
    unfold enrich_hits at h
    cases hone : enrichOne bias dt x with
    | error e => rw [hone] at h; cases h
    | ok p0 =>
      rw [hone] at h
      cases hrest : enrich_hits bias dt rest with
      | error e => rw [hrest] at h; cases h
      | ok ps =>
        rw [hrest] at h
        injection h with h'
        subst h'
        unfold enrichOne at hone
        cases hex : _extract x with
        | error e => rw [hex] at hone; cases hone
        | ok fv =>
          rw [hex] at hone
          injection hone with h0
          have hfn : p0.fn = fv.1 := by rw [← h0]
          have hval : p0.value = fv.2 := by rw [← h0]
          have hpat : _extract (.pat p0) = .ok (fv.1, fv.2) := by
            rw [show _extract (.pat p0) = .ok (p0.fn, p0.value) from rfl, hfn, hval]
          simp only [List.map_cons, scoreLoop, hpat, hex]
          exact ih ps _ hrest

/-- C10: enriching does not change the composite score; the score of the
enriched hits equals the score of the raw mappings they came from. -/
theorem enrich_total_consistent (bias : BiasMap) (cmin cmax : ℤ) (dt : Option ℕ)
    (hits : List ScoreInput) (pats : List PatternHit)
    (h : enrich_hits bias dt hits = .ok pats) :
    total_score_from_hits bias cmin cmax (pats.map ScoreInput.pat) =
      total_score_from_hits bias cmin cmax hits := by
  unfold total_score_from_hits
  rw [scoreLoop_enrich bias dt hits pats 0 h]

/-- Witness: score preservation on the literal scenario enrichment. -/
theorem enrich_total_consistent_witness :
    total_score_from_hits scenarioBias (-5) 5 (scenarioEnriched.map ScoreInput.pat) =
      total_score_from_hits scenarioBias (-5) 5 scenarioHits :=
  enrich_total_consistent scenarioBias (-5) 5 Option.none scenarioHits scenarioEnriched
    (by simp [enrich_hits, enrichOne, _extract, pyInt, pyStr, _lookup_bias, dget,
              _normalize_variant, scenarioBias, scenarioHits, scenarioEnriched,
              biasEntryOf, round2, roundHalfEven]
        norm_num [Int.fract])

/-- Compute pattern series either fails the column check (no series) or
passes the frame's per-row dates through unchanged. -/
lemma compute_series_dates (dets : List Detector) (df : Frame)
    (patterns : Option (List String)) :
    (_compute_pattern_series dets df patterns).1 = [] ∨
    (_compute_pattern_series dets df patterns).2 = df.dates := by
  by_cases hcond : (lowerMap (df.cols.map (fun p => p.1)) "open" = Option.none ∨
      lowerMap (df.cols.map (fun p => p.1)) "high" = Option.none ∨
      lowerMap (df.cols.map (fun p => p.1)) "low" = Option.none ∨
      lowerMap (df.cols.map (fun p => p.1)) "close" = Option.none)
  · left
    simp [_compute_pattern_series, hcond]
  · right
    simp [_compute_pattern_series, hcond]

/-- C9: a missing backend, an empty frame, or a missing OHLC column all
degrade detect with history to the empty pair rather than an error. -/
theorem detect_degenerate (backend : Option (List Detector)) (df : Frame)
    (lookback : ℕ) (patterns : Option (List String)) :
    (backend = Option.none →
       detect_with_history backend df lookback patterns = some ([], [])) ∧
    (df.dates = [] →
       detect_with_history backend df lookback patterns = some ([], [])) ∧
    (∀ k, k ∈ (["open", "high", "low", "close"] : List String) →
       lowerMap (df.cols.map (fun p => p.1)) k = Option.none →
       detect_with_history backend df lookback patterns = some ([], [])) := by
  refine ⟨?_, ?_, ?_⟩
  · intro h
    subst h
    rfl
  · intro h
    cases backend with
    | none => rfl
    | some dets => simp [detect_with_history, h]
  · intro k hk hmiss
    cases backend with
    | none => rfl
    | some dets =>
      by_cases hemp : df.dates.isEmpty
      · simp [detect_with_history, hemp]
      · have hcomp : _compute_pattern_series dets df patterns = ([], []) := by
          unfold _compute_pattern_series
          fin_cases hk <;> simp [hmiss]
        simp [detect_with_history, hemp, hcomp]

/-- Witness: the degenerate cases on an empty frame and a frame without
OHLC columns. -/
theorem detect_degenerate_witness :
    detect_with_history sampleBackend emptyFrame 20 Option.none = some ([], []) ∧
    detect_with_history sampleBackend noOhlcFrame 20 Option.none = some ([], []) :=
  ⟨(detect_degenerate sampleBackend emptyFrame 20 Option.none).2.1 rfl,
   (detect_degenerate sampleBackend noOhlcFrame 20 Option.none).2.2 "open"
     (by decide) (by decide)⟩

/-- The history loop succeeds on in-range indices and emits at most one
entry per index, every entry with a nonempty hit set, the entry dates a
sublist of the dates selected by the indices. -/
lemma historyLoop_spec (sm : List (String × List (Option ℤ))) (dates : List ℕ) :
    ∀ idxs : List ℕ, (∀ i ∈ idxs, i < dates.length) →
    ∃ es, historyLoop sm dates idxs = some es ∧
      es.length ≤ idxs.length ∧
      (∀ e ∈ es, e.hits ≠ []) ∧
      List.Sublist (es.map (fun e => e.date)) (idxs.map (fun i => dates.getD i 0)) := by
  intro idxs
  induction idxs with
  | nil => exact fun _ => ⟨[], rfl, by simp, by simp, by simp⟩
  | cons i rest ih =>
    intro hall
    have hi : i < dates.length := hall i (List.mem_cons_self i rest)
    obtain ⟨es, hes, hlen, hne, hsub⟩ := ih (fun j hj => hall j (List.mem_cons_of_mem i hj))
    have hget : dates[i]? = some dates[i] := List.getElem?_eq_getElem hi
    have hd : dates.getD i 0 = dates[i] := List.getD_eq_getElem dates 0 hi
    by_cases hdh : (dayHits sm i).isEmpty
    · refine ⟨es, ?_, hlen.trans (Nat.le_succ _), hne, ?_⟩
      · simp [historyLoop, hget, hes, hdh]
      · exact hsub.trans (List.sublist_cons_self _ _)
    · refine ⟨HistoryEntry.mk dates[i] (dayHits sm i) :: es, ?_, ?_, ?_, ?_⟩
      · simp [historyLoop, hget, hes, hdh]
      · simpa using Nat.succ_le_succ hlen
      · intro e he
        rcases List.mem_cons.mp he with rfl | hmem
        · intro hc
          apply hdh
          rw [List.isEmpty_iff]
          exact hc
        · exact hne e hmem
      · simp only [List.map_cons, hd]
        exact hsub.cons₂ _

/-- Selecting dates at strictly increasing in-range indices of a sorted
dates list yields a sorted list. -/
lemma mapGetD_pairwise (dates : List ℕ) (hsort : dates.Pairwise (· ≤ ·))
    (idxs : List ℕ) (hval : ∀ i ∈ idxs, i < dates.length)
    (hinc : idxs.Pairwise (· < ·)) :
    (idxs.map (fun i => dates.getD i 0)).Pairwise (· ≤ ·) := by
  rw [List.pairwise_map]
  refine hinc.imp_of_mem ?_
  intro a b ha hb hab
  have ha' : a < dates.length := hval a ha
  have hb' : b < dates.length := hval b hb
  rw [List.getD_eq_getElem dates 0 ha', List.getD_eq_getElem dates 0 hb']
  exact List.pairwise_iff_get.mp hsort ⟨a, ha'⟩ ⟨b, hb'⟩ hab

/-- C8: on a frame with sorted dates, detect with history never errors and
returns a history no longer than the day count and no longer than the
lookback window, every entry carrying at least one nonzero detector output,
in ascending date order. -/
theorem detect_history_ok (backend : Option (List Detector)) (df : Frame)
    (lookback : ℕ) (patterns : Option (List String))
    (hsort : df.dates.Pairwise (· ≤ ·)) :
    ∃ today hist,
      detect_with_history backend df lookback patterns = some (today, hist) ∧
      hist.length ≤ df.dates.length ∧
      hist.length ≤ lookback ∧
      (∀ e ∈ hist, e.hits ≠ []) ∧
      (hist.map (fun e => e.date)).Pairwise (· ≤ ·) := by
  cases backend with
  | none => exact ⟨[], [], rfl, by simp, by simp, by simp, by simp⟩
  | some dets =>
    by_cases hemp : df.dates.isEmpty
    · exact ⟨[], [], by simp [detect_with_history, hemp], by simp, by simp, by simp, by simp⟩
    · rcases hc : _compute_pattern_series dets df patterns with ⟨sm1, sm2⟩
      by_cases hsm : sm1.isEmpty
      · exact ⟨[], [], by simp [detect_with_history, hemp, hc, hsm],
               by simp, by simp, by simp, by simp⟩
      · have hsm2 : sm2 = df.dates := by
          rcases compute_series_dates dets df patterns with h | h
          · rw [hc] at h
            have h' : sm1 = [] := h
            exact absurd (by simp [h']) hsm
          · rw [hc] at h
            exact h
        have hpos : 0 < df.dates.length := by
          cases hdd : df.dates with
          | nil => rw [hdd] at hemp; simp at hemp
          | cons a l => simp [hdd]
        have hval : ∀ i ∈ List.range' (sm2.length - 1 + 1 - lookback)
            (sm2.length - 1 + 1 - (sm2.length - 1 + 1 - lookback)), i < sm2.length := by
          intro i hi
          rw [List.mem_range'_1] at hi
          have h2 := hi.2
          rw [hsm2] at h2 ⊢
          omega
        obtain ⟨es, hes, hlen, hne, hsub⟩ := historyLoop_spec sm1 sm2 _ hval
        have hrange : (List.range' (sm2.length - 1 + 1 - lookback)
            (sm2.length - 1 + 1 - (sm2.length - 1 + 1 - lookback))).length =
            sm2.length - 1 + 1 - (sm2.length - 1 + 1 - lookback) := by
          simp
        refine ⟨dayHits sm1 (sm2.length - 1), es, ?_, ?_, ?_, hne, ?_⟩
        · simp [detect_with_history, hemp, hc, hsm, hes]
        · rw [hrange] at hlen
          rw [hsm2] at hlen
          omega
        · rw [hrange] at hlen
          omega
        · have hpair := mapGetD_pairwise sm2 (hsm2 ▸ hsort) _ hval
            (List.pairwise_lt_range' _ _)
          exact hpair.sublist hsub

/-- Witness: the windowing theorem applied to the three-day sample frame,
whose day count is below the default lookback of 20. -/
theorem detect_history_ok_witness :
    ∃ today hist,
      detect_with_history sampleBackend sampleFrame 20 Option.none = some (today, hist) ∧
      hist.length ≤ sampleFrame.dates.length ∧
      hist.length ≤ 20 ∧
      (∀ e ∈ hist, e.hits ≠ []) ∧
      (hist.map (fun e => e.date)).Pairwise (· ≤ ·) :=
  detect_history_ok sampleBackend sampleFrame 20 Option.none (by decide)

end Candle
